import Mathlib

/-
Shallow embedding of the boundary-segment assembler of
`src/overpass/request.py` (`get_area_bounding_points_check_orderCM`,
lines 116-242), together with proofs about its behaviour.

A vertex is a `[lon, lat]` pair; the Python code compares vertices with
exact (float) equality and performs no arithmetic on them, so vertices are
modelled as pairs of rationals.  The mutable lists `points` (the main
ring), `exclaves` and `ignored` of the Python loop become an explicit
state record; each iteration of the `for` loop over `members_ways` is the
function `step`, which receives the optional next way segment
(`members_ways[i+1]`, used by the bootstrap branch) exactly as the source
does.  Python exceptions (`raise Exception("Points not consecutive,
check!")`, the re-raised `IndexError` when `members_ways[i+1]` does not
exist, and the `IndexError` a 0-vertex geometry would cause) become the
error cases of `Except`.
-/

set_option autoImplicit false

namespace Overpass

/-- A `[lon, lat]` coordinate pair, compared by exact value equality. -/
abbrev Vertex : Type := ℚ × ℚ

/-- The ordered vertex list of one way member's geometry. -/
abbrev Segment : Type := List Vertex

/-- One entry of `data["elements"][0]["members"]`: a way with its geometry,
a node with its coordinates, or any other member type (e.g. a relation
reference), which the source leaves unprocessed. -/
inductive Member : Type where
  | way (geometry : Segment)
  | node (lon lat : ℚ)
  | rest
  deriving DecidableEq, Repr

/-- The relation-level bounding box; the source passes it through untouched. -/
structure Bounds where
  minlat : ℚ
  minlon : ℚ
  maxlat : ℚ
  maxlon : ℚ
  deriving DecidableEq, Repr

/-- The three mutable accumulators of the Python loop: `points` (main ring),
`exclaves`, `ignored`. -/
structure AsmState where
  points : List Vertex
  exclaves : List Segment
  ignored : List Vertex
  deriving DecidableEq, Repr

/-- The ways in which the Python loop aborts: the two
`Exception("Points not consecutive, check!")` raises, the re-raised
`IndexError` when `members_ways[i+1]` does not exist, and the `IndexError`
that indexing an empty geometry would cause. -/
inductive AsmError : Type where
  | notConsecutive
  | noNextSegment
  | emptySegment
  deriving DecidableEq, Repr

/-- One iteration of the `for i, m in enumerate(members_ways[:])` loop
(request.py lines 151-240).  `next?` is `members_ways[i+1]` when it
exists.  `first`/`last` are `curr_segm[0]`/`curr_segm[-1]`; the outer
`if len(points):` is the match on `st.points.getLast?` (whose `some`
value is the Python `points[-1]`). -/
def step (ig : Bool) (next? : Option Segment) (st : AsmState) (curr : Segment) :
    Except AsmError AsmState :=
  match curr.head?, curr.getLast? with
  | some first, some last =>
    match st.points.getLast? with
    | some ptail =>
      if first ∈ st.points ∧ last ∈ st.points then
        -- closing segment
        if first = ptail then
          .ok { st with points := st.points ++ curr }
        else if last = ptail then
          .ok { st with points := st.points ++ curr.reverse }
        else
          .error .notConsecutive
      else if first ∈ st.points then
        if ig ∧ ¬ first = ptail then
          .ok { st with ignored := st.ignored ++ curr }
        else
          -- next segment, correct order
          .ok { st with points := st.points ++ curr }
      else if last ∈ st.points then
        if ig ∧ ¬ last = ptail then
          .ok { st with ignored := st.ignored ++ curr }
        else
          -- next segment, wrong order
          .ok { st with points := st.points ++ curr.reverse }
      else
        -- found an isolated border part -> don't add to main polygon
        if ig ∧ (first ∈ st.ignored ∨ last ∈ st.ignored) then
          .ok { st with ignored := st.ignored ++ curr }
        else
          match st.exclaves.getLast? with
          | some lastExclave =>
            if first ∈ lastExclave ∧ last ∈ lastExclave then
              if lastExclave.getLast? = some first then
                -- closing segment, correct order
                .ok { st with exclaves := st.exclaves.dropLast ++ [lastExclave ++ curr] }
              else if lastExclave.getLast? = some last then
                -- closing segment, wrong order
                .ok { st with exclaves := st.exclaves.dropLast ++ [lastExclave ++ curr.reverse] }
              else
                .error .notConsecutive
            else if first ∈ lastExclave then
              .ok { st with exclaves := st.exclaves.dropLast ++ [lastExclave ++ curr] }
            else if last ∈ lastExclave then
              .ok { st with exclaves := st.exclaves.dropLast ++ [lastExclave ++ curr.reverse] }
            else
              -- new enclave
              .ok { st with exclaves := st.exclaves ++ [curr] }
          | none =>
            -- first enclave
            .ok { st with exclaves := st.exclaves ++ [curr] }
    | none =>
      -- bootstrap: check order of first segment against the next one
      match next? with
      | none => .error .noNextSegment
      | some nextSeg =>
        if last ∈ nextSeg then
          -- correct order
          .ok { st with points := st.points ++ curr }
        else if first ∈ nextSeg then
          -- first segment in wrong order
          .ok { st with points := st.points ++ curr.reverse }
        else
          -- the first segment is already an enclave
          .ok { st with exclaves := st.exclaves ++ [curr] }
  | _, _ => .error .emptySegment

/-- The whole loop over `members_ways`: each segment is processed with the
following segment (`members_ways[i+1]`) as look-ahead; an error aborts the
call with no partial result. -/
def runWays (ig : Bool) : AsmState → List Segment → Except AsmError AsmState
  | st, [] => .ok st
  | st, c :: rest =>
    match step ig rest.head? st c with
    | .ok st' => runWays ig st' rest
    | .error e => .error e

/-- `members_ways = [m for m in members if m["type"] == "way"]`, with each
member's geometry already converted to `[[p["lon"], p["lat"]] ...]`. -/
def waySegments (members : List Member) : List Segment :=
  members.filterMap fun m =>
    match m with
    | .way g => some g
    | _ => none

/-- `members_others = [m for m in members if m["type"] != "way"]`. -/
def membersOthers (members : List Member) : List Member :=
  members.filter fun m =>
    match m with
    | .way _ => false
    | _ => true

/-- `nodes = [[m["lon"], m["lat"]] for m in members_nodes]` where
`members_nodes = [m for m in members_others if m["type"] == "node"]`. -/
def nodePoints (members : List Member) : List Vertex :=
  (membersOthers members).filterMap fun m =>
    match m with
    | .node lon lat => some (lon, lat)
    | _ => none

/-- The tuple `points, exclaves, nodes, bounds` the source returns. -/
structure AsmResult where
  points : List Vertex
  exclaves : List Segment
  nodes : List Vertex
  bounds : Bounds
  deriving DecidableEq, Repr

/-- The whole member-processing part of
`get_area_bounding_points_check_orderCM` (lines 128-242): node extraction,
the way loop from empty accumulators, and the returned tuple.  The
`ignored` accumulator is internal to the loop and not returned. -/
def assemble (ig : Bool) (members : List Member) (bounds : Bounds) :
    Except AsmError AsmResult :=
  match runWays ig ⟨[], [], []⟩ (waySegments members) with
  | .ok st => .ok ⟨st.points, st.exclaves, nodePoints members, bounds⟩
  | .error e => .error e

deriving instance DecidableEq for Except

/-- Test segment `A=[[0,0],[1,0],[1,1]]` of spec section 8. -/
def segA : Segment := [(0,0),(1,0),(1,1)]

/-- Test segment `B=[[1,1],[0,1],[0,0]]` of spec section 8. -/
def segB : Segment := [(1,1),(0,1),(0,0)]

/-- A two-vertex segment extending `segA` forward at its tail `(1,1)`. -/
def segExt : Segment := [(1,1),(0,1)]

/-- A segment touching the assembled main ring at the interior vertex
`(1,0)` only. -/
def segTouch : Segment := [(1,0),(5,5)]

/-- A dummy pass-through bounding box for concrete runs. -/
def bounds0 : Bounds := ⟨0,0,0,0⟩

end Overpass

-- Helper lemmas about single steps and whole runs.
namespace Overpass

lemma step_bootstrap (ig : Bool) (st : AsmState) (curr nxt : Segment) (first last : Vertex)
    (hp : st.points = []) (hh : curr.head? = some first) (hl : curr.getLast? = some last) :
    step ig (some nxt) st curr =
      if last ∈ nxt then .ok { st with points := st.points ++ curr }
      else if first ∈ nxt then .ok { st with points := st.points ++ curr.reverse }
      else .ok { st with exclaves := st.exclaves ++ [curr] } := by
  unfold step
  rw [hh, hl, hp]
  simp

lemma step_bootstrap_none (ig : Bool) (st : AsmState) (curr : Segment) (first last : Vertex)
    (hp : st.points = []) (hh : curr.head? = some first) (hl : curr.getLast? = some last) :
    step ig none st curr = .error .noNextSegment := by
  unfold step
  rw [hh, hl, hp]
  simp

lemma step_main (ig : Bool) (next? : Option Segment) (st : AsmState) (curr : Segment)
    (first last ptail : Vertex)
    (hh : curr.head? = some first) (hl : curr.getLast? = some last)
    (ht : st.points.getLast? = some ptail) :
    step ig next? st curr =
      if first ∈ st.points ∧ last ∈ st.points then
        if first = ptail then .ok { st with points := st.points ++ curr }
        else if last = ptail then .ok { st with points := st.points ++ curr.reverse }
        else .error .notConsecutive
      else if first ∈ st.points then
        if ig ∧ ¬ first = ptail then .ok { st with ignored := st.ignored ++ curr }
        else .ok { st with points := st.points ++ curr }
      else if last ∈ st.points then
        if ig ∧ ¬ last = ptail then .ok { st with ignored := st.ignored ++ curr }
        else .ok { st with points := st.points ++ curr.reverse }
      else if ig ∧ (first ∈ st.ignored ∨ last ∈ st.ignored) then
        .ok { st with ignored := st.ignored ++ curr }
      else
        match st.exclaves.getLast? with
        | some lastExclave =>
          if first ∈ lastExclave ∧ last ∈ lastExclave then
            if lastExclave.getLast? = some first then
              .ok { st with exclaves := st.exclaves.dropLast ++ [lastExclave ++ curr] }
            else if lastExclave.getLast? = some last then
              .ok { st with exclaves := st.exclaves.dropLast ++ [lastExclave ++ curr.reverse] }
            else .error .notConsecutive
          else if first ∈ lastExclave then
            .ok { st with exclaves := st.exclaves.dropLast ++ [lastExclave ++ curr] }
          else if last ∈ lastExclave then
            .ok { st with exclaves := st.exclaves.dropLast ++ [lastExclave ++ curr.reverse] }
          else .ok { st with exclaves := st.exclaves ++ [curr] }
        | none => .ok { st with exclaves := st.exclaves ++ [curr] } := by
  unfold step
  rw [hh, hl, ht]

lemma mem_last_exclave_extend {l : List Segment} {a e : Segment} (hex : l.getLast? = some a)
    (he : e ∈ l) (c : Segment) : ∃ t, e ++ t ∈ l.dropLast ++ [a ++ c] := by
  have hl : l.dropLast ++ [a] = l := List.dropLast_append_getLast? a (Option.mem_def.mpr hex)
  rw [← hl] at he
  rcases List.mem_append.mp he with h1 | h1
  · exact ⟨[], by simpa using Or.inl h1⟩
  · have he2 : e = a := by simpa using h1
    subst he2
    exact ⟨c, by simp⟩

lemma step_ok_shape (ig : Bool) (next? : Option Segment) (st : AsmState) (curr : Segment)
    (st' : AsmState) (h : step ig next? st curr = .ok st') :
    (∃ t, st'.points = st.points ++ t) ∧
    (∃ t, st'.ignored = st.ignored ++ t) ∧
    (∀ e, e ∈ st.exclaves → ∃ t, e ++ t ∈ st'.exclaves) ∧
    (∀ v, v ∈ curr → v ∈ st'.points ∨ (∃ e ∈ st'.exclaves, v ∈ e) ∨ v ∈ st'.ignored) := by
  unfold step at h
  iterate 14 (all_goals (try (split at h)))
  all_goals (try (exact Except.noConfusion h))
  all_goals (injection h with h)
  all_goals (subst h)
  all_goals refine ⟨?_, ?_, fun e he => ?_, fun v hv => ?_⟩
  all_goals first
    | exact ⟨_, rfl⟩
    | (refine ⟨[], ?_⟩; simp; done)
    | (refine ⟨[], ?_⟩; simpa using he)
    | (refine ⟨[], ?_⟩; rw [List.append_nil]; exact List.mem_append_left _ he)
    | (refine mem_last_exclave_extend ?_ he _; assumption)
    | exact Or.inl (List.mem_append_right _ hv)
    | exact Or.inl (List.mem_append_right _ (List.mem_reverse.mpr hv))
    | exact Or.inr (Or.inr (List.mem_append_right _ hv))
    | (refine Or.inr (Or.inl ⟨_, List.mem_append_right _ (List.mem_singleton_self _), ?_⟩);
       simp [hv]; done)

lemma runWays_cons (ig : Bool) (st : AsmState) (c : Segment) (rest : List Segment) :
    runWays ig st (c :: rest) =
      match step ig rest.head? st c with
      | .ok st' => runWays ig st' rest
      | .error e => .error e := rfl

lemma runWays_ok_shape (ig : Bool) : ∀ (l : List Segment) (st st' : AsmState),
    runWays ig st l = .ok st' →
    (∃ t, st'.points = st.points ++ t) ∧
    (∃ t, st'.ignored = st.ignored ++ t) ∧
    (∀ e, e ∈ st.exclaves → ∃ t, e ++ t ∈ st'.exclaves)
  | [], st, st', h => by
    have h' : st = st' := by simpa [runWays] using h
    subst h'
    exact ⟨⟨[], by simp⟩, ⟨[], by simp⟩, fun e he => ⟨[], by simpa using he⟩⟩
  | c :: rest, st, st', h => by
    rw [runWays_cons] at h
    rcases hstep : step ig rest.head? st c with e | st₀ <;> rw [hstep] at h
    · exact absurd h (by simp)
    · obtain ⟨⟨t1, h1⟩, ⟨t2, h2⟩, h3⟩ := runWays_ok_shape ig rest st₀ st' h
      obtain ⟨⟨s1, g1⟩, ⟨s2, g2⟩, g3, _⟩ := step_ok_shape ig rest.head? st c st₀ hstep
      refine ⟨⟨s1 ++ t1, by rw [h1, g1, List.append_assoc]⟩,
        ⟨s2 ++ t2, by rw [h2, g2, List.append_assoc]⟩, fun e he => ?_⟩
      obtain ⟨u, hu⟩ := g3 e he
      obtain ⟨u', hu'⟩ := h3 (e ++ u) hu
      exact ⟨u ++ u', by rw [← List.append_assoc]; exact hu'⟩

lemma runWays_covered (ig : Bool) : ∀ (l : List Segment) (st st' : AsmState),
    runWays ig st l = .ok st' → ∀ s ∈ l, ∀ v ∈ s,
      v ∈ st'.points ∨ (∃ e ∈ st'.exclaves, v ∈ e) ∨ v ∈ st'.ignored
  | [], _, _, _ => fun s hs => absurd hs (List.not_mem_nil s)
  | c :: rest, st, st', h => by
    rw [runWays_cons] at h
    rcases hstep : step ig rest.head? st c with e | st₀ <;> rw [hstep] at h
    · exact absurd h (by simp)
    · intro s hs v hv
      rcases List.mem_cons.mp hs with rfl | hs
      · obtain ⟨_, _, _, g4⟩ := step_ok_shape ig rest.head? st s st₀ hstep
        obtain ⟨⟨t1, h1⟩, ⟨t2, h2⟩, h3⟩ := runWays_ok_shape ig rest st₀ st' h
        rcases g4 v hv with hc | ⟨e, he, hve⟩ | hc
        · exact Or.inl (h1 ▸ List.mem_append_left _ hc)
        · obtain ⟨u, hu⟩ := h3 e he
          exact Or.inr (Or.inl ⟨e ++ u, hu, List.mem_append_left _ hve⟩)
        · exact Or.inr (Or.inr (h2 ▸ List.mem_append_left _ hc))
      · exact runWays_covered ig rest st₀ st' h s hs v hv

end Overpass

namespace Overpass

/-- Claim C1: while the main ring is still empty, a processed way segment is
oriented by look-ahead against the next way segment's full vertex list: it
is appended to the main ring as-is when its last vertex occurs anywhere in
the next segment, reversed and appended when only its first vertex does,
and pushed as a new entry in the exclave-ring list when neither does. -/
theorem claim_C1_bootstrap_lookahead (ig : Bool) (st : AsmState) (curr nxt : Segment)
    (first last : Vertex) (hp : st.points = [])
    (hh : curr.head? = some first) (hl : curr.getLast? = some last) :
    (last ∈ nxt → step ig (some nxt) st curr = .ok { st with points := st.points ++ curr }) ∧
    (last ∉ nxt → first ∈ nxt →
      step ig (some nxt) st curr = .ok { st with points := st.points ++ curr.reverse }) ∧
    (last ∉ nxt → first ∉ nxt →
      step ig (some nxt) st curr = .ok { st with exclaves := st.exclaves ++ [curr] }) := by
  refine ⟨fun h1 => ?_, fun h1 h2 => ?_, fun h1 h2 => ?_⟩ <;>
    rw [step_bootstrap ig st curr nxt first last hp hh hl]
  · rw [if_pos h1]
  · rw [if_neg h1, if_pos h2]
  · rw [if_neg h1, if_neg h2]

/-- Witness for C1 at a concrete input. -/
theorem claim_C1_witness :
    step false (some [((1:ℚ),(1:ℚ)),(2,2)]) ⟨[], [], []⟩ [((0:ℚ),(0:ℚ)),(1,1)] =
      .ok ⟨[((0:ℚ),(0:ℚ)),(1,1)], [], []⟩ :=
  (claim_C1_bootstrap_lookahead false ⟨[], [], []⟩ [((0:ℚ),(0:ℚ)),(1,1)]
    [((1:ℚ),(1:ℚ)),(2,2)] (0,0) (1,1) rfl rfl rfl).1 (by decide)

/-- Claim C2 fails on the code: with exactly the way members `segA` and
`segB`, the closing segment `segB` is appended in full, so the shared
vertex `(1,1)` occurs twice and the main ring is a six-vertex list, not
the five-vertex list the claim states. -/
theorem claim_C2_counterexample :
    assemble false [Member.way segA, Member.way segB] bounds0 =
      .ok ⟨[(0,0),(1,0),(1,1),(1,1),(0,1),(0,0)], [], [], bounds0⟩ ∧
    (assemble false [Member.way segA, Member.way segB] bounds0).map AsmResult.points ≠
      .ok [(0,0),(1,0),(1,1),(0,1),(0,0)] := by
  constructor
  · decide
  · decide

/-- Claim C2 amended: `assemble` bootstraps `segA` into the main ring
as-is, then appends `segB` forward in full (its first vertex equals the
ring's tail), so the returned main ring is
`[[0,0],[1,0],[1,1],[1,1],[0,1],[0,0]]`, with the shared vertex
duplicated. -/
theorem claim_C2_amended :
    assemble false [Member.way segA, Member.way segB] bounds0 =
      .ok ⟨[(0,0),(1,0),(1,1),(1,1),(0,1),(0,0)], [], [], bounds0⟩ := by
  decide

/-- Claim C6 fails on the code: on the run below the vertex `(1,0)` ends
up both in the main ring and in the ignored set. -/
theorem claim_C6_counterexample :
    runWays true ⟨[], [], []⟩ [segA, segExt, segTouch] =
      .ok ⟨[(0,0),(1,0),(1,1),(1,1),(0,1)], [], [(1,0),(5,5)]⟩ ∧
    ((1:ℚ), (0:ℚ)) ∈ ([(0,0),(1,0),(1,1),(1,1),(0,1)] : List Vertex) ∧
    ((1:ℚ), (0:ℚ)) ∈ ([((1:ℚ),(0:ℚ)),(5,5)] : List Vertex) := by
  refine ⟨by decide, by decide, by decide⟩

/-- Claim C6 amended: on every successful run every vertex of every input
way segment ends up in at least one of the main ring, an exclave ring or
the ignored set (but a vertex can end up in more than one of them). -/
theorem claim_C6_amended (ig : Bool) (members : List Member) (st' : AsmState)
    (h : runWays ig ⟨[], [], []⟩ (waySegments members) = .ok st') :
    ∀ s ∈ waySegments members, ∀ v ∈ s,
      v ∈ st'.points ∨ (∃ e ∈ st'.exclaves, v ∈ e) ∨ v ∈ st'.ignored :=
  runWays_covered ig (waySegments members) ⟨[], [], []⟩ st' h

/-- Witness for the amended C6 at a concrete input. -/
theorem claim_C6_amended_witness :
    ((0:ℚ), (0:ℚ)) ∈ ([(0,0),(1,0),(1,1),(1,1),(0,1),(0,0)] : List Vertex) ∨
    (∃ e ∈ ([] : List Segment), ((0:ℚ),(0:ℚ)) ∈ e) ∨
    ((0:ℚ),(0:ℚ)) ∈ ([] : List Vertex) :=
  claim_C6_amended false [Member.way segA, Member.way segB]
    ⟨[(0,0),(1,0),(1,1),(1,1),(0,1),(0,0)], [], []⟩ (by decide) segA (by decide)
    (0,0) (by decide)

/-- Claim C7: when the member list has exactly one (non-empty) way
segment, the bootstrap look-ahead has no second way segment to compare
against and `assemble` fails instead of returning a result. -/
theorem claim_C7_single_way_fails (ig : Bool) (members : List Member) (b : Bounds)
    (g : Segment) (hws : waySegments members = [g]) (hg : g ≠ []) :
    assemble ig members b = .error .noNextSegment := by
  obtain ⟨f, t, rfl⟩ : ∃ f t, g = f :: t := by
    cases g with
    | nil => exact absurd rfl hg
    | cons f t => exact ⟨f, t, rfl⟩
  have hl : (f :: t).getLast? = some ((f :: t).getLast hg) :=
    List.getLast?_eq_getLast_of_ne_nil hg
  have hstep : step ig none ⟨[], [], []⟩ (f :: t) = .error .noNextSegment :=
    step_bootstrap_none ig ⟨[], [], []⟩ (f :: t) f ((f :: t).getLast hg) rfl rfl hl
  unfold assemble
  rw [hws, runWays_cons]
  simp only [List.head?_nil]
  rw [hstep]

/-- Witness for C7 at a concrete input. -/
theorem claim_C7_witness :
    assemble false [Member.way segA] bounds0 = .error .noNextSegment :=
  claim_C7_single_way_fails false [Member.way segA] bounds0 segA (by decide) (by decide)

/-- Claim C8: on every successful run the vertices already placed in the
main ring keep their positions: the final main ring extends the initial
one, segments are only ever appended at the end. -/
theorem claim_C8_append_only (ig : Bool) (l : List Segment) (st st' : AsmState)
    (h : runWays ig st l = .ok st') : ∃ t, st'.points = st.points ++ t :=
  (runWays_ok_shape ig l st st' h).1

/-- Witness for C8 at a concrete input. -/
theorem claim_C8_witness :
    ∃ t, ([(0,0),(1,0),(1,1),(1,1),(0,1),(0,0)] : List Vertex) = [] ++ t :=
  claim_C8_append_only false [segA, segB] ⟨[], [], []⟩
    ⟨[(0,0),(1,0),(1,1),(1,1),(0,1),(0,0)], [], []⟩ (by decide)

end Overpass

namespace Overpass

lemma step_points_unchanged (ig : Bool) (next? : Option Segment) (st : AsmState)
    (curr : Segment) (first last ptail : Vertex)
    (hh : curr.head? = some first) (hl : curr.getLast? = some last)
    (ht : st.points.getLast? = some ptail)
    (hf : first ∉ st.points) (hlm : last ∉ st.points)
    {st' : AsmState} (h : step ig next? st curr = .ok st') : st'.points = st.points := by
  rw [step_main ig next? st curr first last ptail hh hl ht] at h
  iterate 12 (all_goals (try (split at h)))
  all_goals (try (exact Except.noConfusion h))
  all_goals (injection h with h)
  all_goals (subst h)
  all_goals first
    | rfl
    | (exact absurd (And.left (by assumption)) hf)

/-- Claim C3: a way segment touching the non-empty main ring at exactly
one endpoint that is not the ring's current tail is recorded as ignored
(all its vertices, none appended) when `ignore_enclaves` is set, and
appended to the main ring (forward on a first-endpoint match, reversed on
a last-endpoint match) when it is not. -/
theorem claim_C3_enclave_toggle (next? : Option Segment) (st : AsmState) (curr : Segment)
    (first last ptail : Vertex)
    (hh : curr.head? = some first) (hl : curr.getLast? = some last)
    (ht : st.points.getLast? = some ptail) :
    (first ∈ st.points → last ∉ st.points → first ≠ ptail →
      step true next? st curr = .ok { st with ignored := st.ignored ++ curr } ∧
      step false next? st curr = .ok { st with points := st.points ++ curr }) ∧
    (first ∉ st.points → last ∈ st.points → last ≠ ptail →
      step true next? st curr = .ok { st with ignored := st.ignored ++ curr } ∧
      step false next? st curr = .ok { st with points := st.points ++ curr.reverse }) := by
  constructor
  · intro h1 h2 h3
    constructor <;> rw [step_main _ next? st curr first last ptail hh hl ht]
    · rw [if_neg (fun hc => h2 hc.2), if_pos h1, if_pos ⟨rfl, h3⟩]
    · rw [if_neg (fun hc => h2 hc.2), if_pos h1,
        if_neg (fun hc => Bool.false_ne_true hc.1)]
  · intro h1 h2 h3
    constructor <;> rw [step_main _ next? st curr first last ptail hh hl ht]
    · rw [if_neg (fun hc => h1 hc.1), if_neg h1, if_pos h2, if_pos ⟨rfl, h3⟩]
    · rw [if_neg (fun hc => h1 hc.1), if_neg h1, if_pos h2,
        if_neg (fun hc => Bool.false_ne_true hc.1)]

/-- Witness for C3 at a concrete input: ring `[(0,0),(1,0),(1,1)]`, tail
`(1,1)`, segment `[(1,0),(5,5)]` touching at interior vertex `(1,0)`. -/
theorem claim_C3_witness :
    step true none ⟨[((0:ℚ),(0:ℚ)),(1,0),(1,1)], [], []⟩ [((1:ℚ),(0:ℚ)),(5,5)] =
      .ok ⟨[((0:ℚ),(0:ℚ)),(1,0),(1,1)], [], [((1:ℚ),(0:ℚ)),(5,5)]⟩ ∧
    step false none ⟨[((0:ℚ),(0:ℚ)),(1,0),(1,1)], [], []⟩ [((1:ℚ),(0:ℚ)),(5,5)] =
      .ok ⟨[((0:ℚ),(0:ℚ)),(1,0),(1,1),(1,0),(5,5)], [], []⟩ :=
  (claim_C3_enclave_toggle none ⟨[((0:ℚ),(0:ℚ)),(1,0),(1,1)], [], []⟩
    [((1:ℚ),(0:ℚ)),(5,5)] (1,0) (5,5) (1,1) rfl rfl rfl).1
    (by decide) (by decide) (by decide)

/-- Claim C4: a way segment whose both endpoints already occur in the
non-empty main ring but neither of which equals the ring's current tail
makes the step fail with the not-consecutive error, and the whole run
aborts with that error and no result. -/
theorem claim_C4_nonconsecutive_raises (ig : Bool) (next? : Option Segment) (st : AsmState)
    (curr : Segment) (first last ptail : Vertex) (rest : List Segment)
    (hh : curr.head? = some first) (hl : curr.getLast? = some last)
    (ht : st.points.getLast? = some ptail)
    (hf : first ∈ st.points) (hlm : last ∈ st.points)
    (h1 : first ≠ ptail) (h2 : last ≠ ptail) :
    step ig next? st curr = .error .notConsecutive ∧
    runWays ig st (curr :: rest) = .error .notConsecutive := by
  have key : ∀ n : Option Segment, step ig n st curr = .error .notConsecutive := by
    intro n
    rw [step_main ig n st curr first last ptail hh hl ht,
      if_pos ⟨hf, hlm⟩, if_neg h1, if_neg h2]
  exact ⟨key next?, by rw [runWays_cons, key rest.head?]⟩

/-- Witness for C4 at a concrete input: ring `[(0,0),(1,0),(1,1),(2,2)]`,
segment `[(0,0),(1,1)]` with both endpoints in the ring, neither the
tail. -/
theorem claim_C4_witness :
    step false none ⟨[((0:ℚ),(0:ℚ)),(1,0),(1,1),(2,2)], [], []⟩ [((0:ℚ),(0:ℚ)),(1,1)] =
      .error .notConsecutive ∧
    runWays false ⟨[((0:ℚ),(0:ℚ)),(1,0),(1,1),(2,2)], [], []⟩ [[((0:ℚ),(0:ℚ)),(1,1)]] =
      .error .notConsecutive :=
  claim_C4_nonconsecutive_raises false none ⟨[((0:ℚ),(0:ℚ)),(1,0),(1,1),(2,2)], [], []⟩
    [((0:ℚ),(0:ℚ)),(1,1)] (0,0) (1,1) (2,2) [] rfl rfl rfl
    (by decide) (by decide) (by decide) (by decide)

end Overpass

namespace Overpass

lemma nodePoints_eq_filterMap (members : List Member) :
    nodePoints members = members.filterMap fun m =>
      match m with
      | Member.node lon lat => some (lon, lat)
      | _ => none := by
  induction members with
  | nil => rfl
  | cons m ms ih =>
    cases m <;> simp [nodePoints, membersOthers, List.filter_cons, List.filterMap_cons] <;>
      simpa [nodePoints, membersOthers] using ih

/-- Claim C9: on every successful call the returned node list is exactly
the node-typed members, in input member order, each as a `[lon, lat]`
pair; the bounds are passed through unchanged; and the node output does
not depend on the `ignore_enclaves` flag or on the way-segment processing
outcome. -/
theorem claim_C9_node_extraction (ig : Bool) (members : List Member) (b : Bounds)
    (r : AsmResult) (h : assemble ig members b = .ok r) :
    r.nodes = (members.filterMap fun m =>
      match m with
      | Member.node lon lat => some (lon, lat)
      | _ => none) ∧
    r.bounds = b ∧
    (∀ (ig' : Bool) (r' : AsmResult), assemble ig' members b = .ok r' → r'.nodes = r.nodes) := by
  have key : ∀ (ig0 : Bool) (r0 : AsmResult), assemble ig0 members b = .ok r0 →
      r0.nodes = nodePoints members ∧ r0.bounds = b := by
    intro ig0 r0 h0
    unfold assemble at h0
    rcases hr : runWays ig0 ⟨[], [], []⟩ (waySegments members) with e | stf <;> rw [hr] at h0
    · exact absurd h0 (by simp)
    · injection h0 with h0
      subst h0
      exact ⟨rfl, rfl⟩
  obtain ⟨hn, hb⟩ := key ig r h
  refine ⟨?_, hb, fun ig' r' h' => ?_⟩
  · rw [hn, nodePoints_eq_filterMap]
  · rw [(key ig' r' h').1, hn]

/-- Witness for C9 at a concrete input with one node member. -/
theorem claim_C9_witness :
    ([((7:ℚ),(8:ℚ))] : List Vertex) =
      ([Member.way segA, Member.way segB, Member.node 7 8].filterMap fun m =>
        match m with
        | Member.node lon lat => some (lon, lat)
        | _ => none) :=
  (claim_C9_node_extraction false [Member.way segA, Member.way segB, Member.node 7 8]
    bounds0 ⟨[(0,0),(1,0),(1,1),(1,1),(0,1),(0,0)], [], [(7,8)], bounds0⟩ (by decide)).1

/-- Claim C10: the bootstrap look-ahead applies to every way segment
processed while the main ring is still empty, not only to the first one:
when the first segment shares no vertex with the second and is therefore
diverted to an exclave ring, the second segment is in turn oriented by
look-ahead against the third way segment instead of being handled by the
main-pass rules. -/
theorem claim_C10_lookahead_repeats (ig : Bool) (g0 g1 g2 : Segment) (rest : List Segment)
    (f0 l0 f1 l1 : Vertex)
    (hh0 : g0.head? = some f0) (hl0 : g0.getLast? = some l0)
    (hh1 : g1.head? = some f1) (hl1 : g1.getLast? = some l1)
    (hf0 : f0 ∉ g1) (hl0m : l0 ∉ g1) :
    (l1 ∈ g2 → runWays ig ⟨[], [], []⟩ (g0 :: g1 :: g2 :: rest) =
        runWays ig ⟨g1, [g0], []⟩ (g2 :: rest)) ∧
    (l1 ∉ g2 → f1 ∈ g2 → runWays ig ⟨[], [], []⟩ (g0 :: g1 :: g2 :: rest) =
        runWays ig ⟨g1.reverse, [g0], []⟩ (g2 :: rest)) ∧
    (l1 ∉ g2 → f1 ∉ g2 → runWays ig ⟨[], [], []⟩ (g0 :: g1 :: g2 :: rest) =
        runWays ig ⟨[], [g0, g1], []⟩ (g2 :: rest)) := by
  have h1 : runWays ig ⟨[], [], []⟩ (g0 :: g1 :: g2 :: rest) =
      runWays ig ⟨[], [g0], []⟩ (g1 :: g2 :: rest) := by
    rw [runWays_cons]
    simp only [List.head?_cons]
    rw [step_bootstrap ig ⟨[], [], []⟩ g0 g1 f0 l0 rfl hh0 hl0,
      if_neg hl0m, if_neg hf0]
    rfl
  have h2 := step_bootstrap ig ⟨[], [g0], []⟩ g1 g2 f1 l1 rfl hh1 hl1
  refine ⟨fun hc => ?_, fun hc1 hc2 => ?_, fun hc1 hc2 => ?_⟩ <;>
    rw [h1, runWays_cons] <;> simp only [List.head?_cons] <;> rw [h2]
  · rw [if_pos hc]; rfl
  · rw [if_neg hc1, if_pos hc2]; rfl
  · rw [if_neg hc1, if_neg hc2]; rfl

/-- Witness for C10 at a concrete input. -/
theorem claim_C10_witness :
    runWays false ⟨[], [], []⟩
        [[((9:ℚ),(9:ℚ)),(8,8)], [((0:ℚ),(0:ℚ)),(1,1)], [((1:ℚ),(1:ℚ)),(2,2)]] =
      runWays false ⟨[((0:ℚ),(0:ℚ)),(1,1)], [[((9:ℚ),(9:ℚ)),(8,8)]], []⟩
        [[((1:ℚ),(1:ℚ)),(2,2)]] :=
  (claim_C10_lookahead_repeats false [((9:ℚ),(9:ℚ)),(8,8)] [((0:ℚ),(0:ℚ)),(1,1)]
    [((1:ℚ),(1:ℚ)),(2,2)] [] (9,9) (8,8) (0,0) (1,1)
    rfl rfl rfl rfl (by decide) (by decide)).1 (by decide)

end Overpass

namespace Overpass

/-- Claim C5: a way segment with neither endpoint in the non-empty main
ring (and, when `ignore_enclaves` is set, neither endpoint in the ignored
set) is handled against the most recently opened exclave ring only: if
neither endpoint occurs in that ring a new exclave ring holding just the
segment is opened; whatever happens, the segment is never merged into the
main ring; and the whole decision is invariant under the earlier exclave
rings, which are carried through untouched. -/
theorem claim_C5_exclave_handling (ig : Bool) (next? : Option Segment) (st : AsmState)
    (curr : Segment) (first last ptail : Vertex) (lastEx : Segment)
    (hh : curr.head? = some first) (hl : curr.getLast? = some last)
    (ht : st.points.getLast? = some ptail)
    (hf : first ∉ st.points) (hlm : last ∉ st.points)
    (hig : ig = true → first ∉ st.ignored ∧ last ∉ st.ignored)
    (hex : st.exclaves.getLast? = some lastEx) :
    (first ∉ lastEx → last ∉ lastEx →
      step ig next? st curr = .ok { st with exclaves := st.exclaves ++ [curr] }) ∧
    (∀ st', step ig next? st curr = .ok st' → st'.points = st.points) ∧
    (∀ p : List Segment,
      step ig next? { st with exclaves := p ++ st.exclaves } curr =
        (step ig next? st curr).map fun st' =>
          { st' with exclaves := p ++ st'.exclaves }) := by
  have hboth : ¬ (first ∈ st.points ∧ last ∈ st.points) := fun hc => hf hc.1
  have hig' : ¬ (ig ∧ (first ∈ st.ignored ∨ last ∈ st.ignored)) := by
    rintro ⟨hig1, hc⟩
    rcases hig hig1 with ⟨ha, hb⟩
    rcases hc with hc | hc
    · exact ha hc
    · exact hb hc
  have hexne : st.exclaves ≠ [] := by
    intro h0
    rw [h0] at hex
    exact Option.noConfusion hex
  refine ⟨fun h1 h2 => ?_, fun st' hstep => step_points_unchanged ig next? st curr
    first last ptail hh hl ht hf hlm hstep, fun p => ?_⟩
  · rw [step_main ig next? st curr first last ptail hh hl ht]
    rw [if_neg hboth, if_neg hf, if_neg hlm, if_neg hig', hex]
    simp [h1, h2]
  · rw [step_main ig next? st curr first last ptail hh hl ht,
      step_main ig next? { st with exclaves := p ++ st.exclaves } curr first last ptail hh hl ht]
    simp only [if_neg hboth, if_neg hf, if_neg hlm, if_neg hig']
    rw [List.getLast?_append_of_ne_nil p hexne, hex,
      List.dropLast_append_of_ne_nil p hexne]
    by_cases c1 : first ∈ lastEx ∧ last ∈ lastEx
    · by_cases c2 : lastEx.getLast? = some first
      · simp [c1, c2, Except.map, List.append_assoc]
      · by_cases c3 : lastEx.getLast? = some last
        · have c6 : ¬ last = first := fun h6 => c2 (h6 ▸ c3)
          simp [c1, c2, c3, c6, Except.map, List.append_assoc]
        · simp [c1, c2, c3, Except.map]
    · by_cases c4 : first ∈ lastEx
      · have c5x : last ∉ lastEx := fun h5 => c1 ⟨c4, h5⟩
        simp [c4, c5x, Except.map, List.append_assoc]
      · by_cases c5 : last ∈ lastEx
        · simp [c1, c4, c5, Except.map, List.append_assoc]
        · simp [c1, c4, c5, Except.map, List.append_assoc]

end Overpass

namespace Overpass

/-- Witness for C5 at a concrete input: main ring `[(0,0),(1,1)]`, one
existing exclave ring `[(3,3),(4,4)]`, disjoint segment `[(7,7),(8,8)]`. -/
theorem claim_C5_witness :
    step true none ⟨[((0:ℚ),(0:ℚ)),(1,1)], [[((3:ℚ),(3:ℚ)),(4,4)]], []⟩ [((7:ℚ),(7:ℚ)),(8,8)] =
      .ok ⟨[((0:ℚ),(0:ℚ)),(1,1)], [[((3:ℚ),(3:ℚ)),(4,4)], [((7:ℚ),(7:ℚ)),(8,8)]], []⟩ :=
  (claim_C5_exclave_handling true none
    ⟨[((0:ℚ),(0:ℚ)),(1,1)], [[((3:ℚ),(3:ℚ)),(4,4)]], []⟩
    [((7:ℚ),(7:ℚ)),(8,8)] (7,7) (8,8) (1,1) [((3:ℚ),(3:ℚ)),(4,4)]
    rfl rfl rfl (by decide) (by decide) (fun _ => ⟨by decide, by decide⟩) rfl).1
    (by decide) (by decide)

end Overpass
